import Mathlib

/-!
# Verification of `password_cracker.py`

Shallow embedding of the brute-force search engine in
`src/password_cracker.py`, together with proofs settling the frozen
claims about its specification.

Modelling conventions:
* Python strings are `List Char`; the target password, candidate guesses
  and the alphabet (charset) are all character lists.
* Python `int` is `Nat` where the source value is a count, and `Int` for
  `max_length` (the spec discusses non-positive maxima; Python `range`
  clamps them to an empty range, modelled with `Int.toNat`).
* `collections.Counter` is a total function `Char → Nat` defaulting to 0.
* Wall-clock time (`time.time()`) is made explicit: `crack` receives the
  start instant, an abstract clock (time observed at the n-th attempt)
  and the end instant, all rationals.  Float arithmetic is modelled over
  `ℚ`; Python's `round(x, n)` is modelled as exact decimal rounding.
* The engine object of the Python class is one structure holding both
  the configuration and the mutable analytics state, exactly the fields
  assigned in `__init__`.
-/

/-- One entry of `self.time_checkpoints` (a dict with keys
`attempts`, `time`, `rate` in the source). -/
structure Checkpoint where
  attempts : Nat
  time : ℚ
  rate : ℚ
deriving DecidableEq, Repr

/-- The `PasswordCracker` object: constructor arguments plus the
analytics fields initialised in `__init__`.  `length_attempts` is an
insertion-ordered association list mirroring the Python dict. -/
@[ext]
structure PasswordCracker where
  password : List Char
  max_length : Int
  charset : List Char
  verbose : Bool
  attempts : Nat
  start_time : Option ℚ
  end_time : Option ℚ
  found : Bool
  cracked_password : Option (List Char)
  length_attempts : List (Nat × Nat)
  charset_hits : Char → Nat
  time_checkpoints : List Checkpoint

/-- `string.ascii_lowercase`. -/
def ascii_lowercase : List Char :=
  (List.range 26).map (fun i => Char.ofNat (97 + i))

/-- `string.ascii_uppercase`. -/
def ascii_uppercase : List Char :=
  (List.range 26).map (fun i => Char.ofNat (65 + i))

/-- `string.digits`. -/
def string_digits : List Char :=
  (List.range 10).map (fun i => Char.ofNat (48 + i))

/-- `string.punctuation`: the 32 non-alphanumeric printable ASCII
characters, codes 33-47, 58-64, 91-96 and 123-126. -/
def string_punctuation : List Char :=
  ((List.range 128).filter (fun n =>
    (33 ≤ n ∧ n ≤ 47) ∨ (58 ≤ n ∧ n ≤ 64) ∨
    (91 ≤ n ∧ n ≤ 96) ∨ (123 ≤ n ∧ n ≤ 126))).map Char.ofNat

/-- The default alphabet
`string.ascii_letters + string.digits + string.punctuation`. -/
def defaultCharset : List Char :=
  ascii_lowercase ++ ascii_uppercase ++ string_digits ++ string_punctuation

/-- `PasswordCracker.__init__`.  `charset` is `Option` to cover the
Python `None` default; `self.charset = charset or (...)` replaces both
`None` and the empty string by the default alphabet.  The constructor
performs no validation and always succeeds, exactly as the source. -/
def init (password : List Char) (max_length : Int)
    (charset : Option (List Char)) (verbose : Bool) : PasswordCracker :=
  { password := password
    max_length := max_length
    charset := if (charset.getD []).isEmpty then defaultCharset else charset.getD []
    verbose := verbose
    attempts := 0
    start_time := none
    end_time := none
    found := false
    cracked_password := none
    length_attempts := []
    charset_hits := fun _ => 0
    time_checkpoints := [] }

/-- `itertools.product(charset, repeat=length)`, each tuple joined to a
string: all length-`L` words over the alphabet, last position cycling
fastest. -/
def candidates (A : List Char) : Nat → List (List Char)
  | 0 => [[]]
  | n + 1 => (candidates A n).flatMap (fun t => A.map (fun c => t ++ [c]))

/-- The `for char in guess: self.charset_hits[char] += 1` loop. -/
def addHits (h : Char → Nat) : List Char → (Char → Nat)
  | [] => h
  | c :: cs => addHits (fun c' => if c' = c then h c' + 1 else h c') cs

/-- `attempts / elapsed if elapsed > 0 else 0`: the guarded rate
computation used both in `crack`'s checkpoints and in
`generate_report`. -/
def safeRate (attempts : Nat) (elapsed : ℚ) : ℚ :=
  if 0 < elapsed then (attempts : ℚ) / elapsed else 0

/-- Python `round(q, n)`: rounding to `n` decimal places, modelled as
exact decimal rounding over `ℚ` (floats and their tie-breaking are below
the granularity of this embedding). -/
def roundTo (n : Nat) (q : ℚ) : ℚ :=
  (round (q * 10 ^ n) : ℤ) / (10 ^ n : ℚ)

/-- The checkpoint list after one attempt: when verbose and the new
attempt count is a multiple of 100000, append a snapshot with
`elapsed = time.time() - self.start_time` and the guarded rate. -/
def newCheckpoints (clock : Nat → ℚ) (s : PasswordCracker) : List Checkpoint :=
  if s.verbose = true ∧ (s.attempts + 1) % 100000 = 0 then
    s.time_checkpoints ++
      [⟨s.attempts + 1, clock (s.attempts + 1) - s.start_time.getD 0,
        safeRate (s.attempts + 1) (clock (s.attempts + 1) - s.start_time.getD 0)⟩]
  else s.time_checkpoints

/-- The body of the inner `for guess_tuple in itertools.product(...)`
loop in `crack`, for one guess: count the attempt, accumulate
per-character hits, append a checkpoint when verbose and the attempt
count is a multiple of 100000, and record a match (`found = True`,
`cracked_password = guess`; on a non-match both keep their previous
values).  `clock n` is the value of `time.time()` observed at attempt
`n`. -/
def attempt (clock : Nat → ℚ) (s : PasswordCracker) (g : List Char) :
    PasswordCracker :=
  { s with
    attempts := s.attempts + 1
    charset_hits := addHits s.charset_hits g
    time_checkpoints := newCheckpoints clock s
    found := if g = s.password then true else s.found
    cracked_password := if g = s.password then some g else s.cracked_password }

/-- The inner candidate loop of `crack` for one length: process guesses
in order, `break` immediately after the first one equal to the
password. -/
def runLength (clock : Nat → ℚ) (s : PasswordCracker) :
    List (List Char) → PasswordCracker
  | [] => s
  | g :: gs =>
    let s' := attempt clock s g
    if g = s.password then s' else runLength clock s' gs

/-- Python dict assignment `self.length_attempts[length] = v`:
overwrite in place when the key exists, append otherwise. -/
def setAssoc (m : List (Nat × Nat)) (k v : Nat) : List (Nat × Nat) :=
  if k ∈ m.map Prod.fst then
    m.map (fun p => if p.1 = k then (k, v) else p)
  else m ++ [(k, v)]

/-- The state with its `length_attempts` dict replaced
(`self.length_attempts[length] = ...` rebinds only that field). -/
def withLA (s : PasswordCracker) (x : List (Nat × Nat)) : PasswordCracker :=
  { s with length_attempts := x }

/-- The state after `self.start_time = time.time()`. -/
def withStart (s : PasswordCracker) (t : ℚ) : PasswordCracker :=
  { s with start_time := some t }

/-- The state after `self.end_time = time.time()`. -/
def withEnd (s : PasswordCracker) (t : ℚ) : PasswordCracker :=
  { s with end_time := some t }

/-- The outer `for length in range(1, self.max_length + 1)` loop of
`crack`: run the inner loop for each length, record
`length_attempts[length] = attempts - length_start`, and `break` once
`self.found` holds. -/
def runLengths (clock : Nat → ℚ) (s : PasswordCracker) :
    List Nat → PasswordCracker
  | [] => s
  | L :: Ls =>
    let lengthStart := s.attempts
    let s1 := runLength clock s (candidates s.charset L)
    let s2 := withLA s1 (setAssoc s1.length_attempts L (s1.attempts - lengthStart))
    if s2.found then s2 else runLengths clock s2 Ls

/-- The list of lengths visited by `range(1, max_length + 1)`. -/
def lengthList (max_length : Int) : List Nat :=
  (List.range max_length.toNat).map (· + 1)

/-- `PasswordCracker.crack`: record the start instant, run the nested
length/candidate loops, record the end instant, leaving every other
pre-existing field (counters included) untouched. -/
def crack (startT : ℚ) (clock : Nat → ℚ) (endT : ℚ)
    (s : PasswordCracker) : PasswordCracker :=
  withEnd (runLengths clock (withStart s startT) (lengthList s.max_length)) endT

/-- `sum(charset_size ** i for i in range(1, m + 1))`. -/
def searchSpace (k m : Nat) : Nat :=
  ((List.range m).map (fun i => k ^ (i + 1))).sum

/-- `estimate_theoretical_time`'s `total_combinations`: the summed
space over lengths `1 .. len(password)` (note: the *password's* length,
not `max_length`). -/
def estimate_total_combinations (s : PasswordCracker) : Nat :=
  searchSpace s.charset.length s.password.length

/-- The `search_efficiency` sub-report built by `generate_report` when
the password was found. -/
structure SearchEfficiency where
  combinations_tried : Nat
  total_search_space : Nat
  percentage_explored : ℚ
deriving DecidableEq, Repr

/-- The fields of the dict returned by `generate_report` that carry
engine data (presentation-only fields such as the ISO timestamp are
omitted). -/
structure Report where
  success : Bool
  password : Option (List Char)
  total_attempts : Nat
  duration_seconds : ℚ
  attempts_per_second : ℚ
  efficiency_percentage : ℚ
  report_max_length : Int
  charset_size : Nat
  attempts_by_length : List (Nat × Nat)
  search_efficiency : Option SearchEfficiency

/-- `duration = self.end_time - self.start_time if self.end_time else 0`.
(After `crack` both instants are set; an unset `start_time` with a set
`end_time` cannot arise from the embedded code paths.) -/
def durationOf (s : PasswordCracker) : ℚ :=
  match s.end_time with
  | none => 0
  | some e => e - s.start_time.getD 0

/-- `PasswordCracker.generate_report`. -/
def generate_report (s : PasswordCracker) : Report :=
  let duration := durationOf s
  let rate := safeRate s.attempts duration
  { success := s.found
    password := if s.found then s.cracked_password else none
    total_attempts := s.attempts
    duration_seconds := roundTo 3 duration
    attempts_per_second := roundTo 2 rate
    efficiency_percentage :=
      roundTo 6 (if 0 < s.attempts then 1 / (s.attempts : ℚ) * 100 else 0)
    report_max_length := s.max_length
    charset_size := s.charset.length
    attempts_by_length := s.length_attempts
    search_efficiency :=
      if s.found then
        some { combinations_tried := s.attempts
               total_search_space := estimate_total_combinations s
               percentage_explored :=
                 roundTo 4 ((s.attempts : ℚ) /
                   (estimate_total_combinations s : ℚ) * 100) }
      else none }

/-! ## Specification-side characterisations

Derived descriptions of the run, used on the right-hand side of the
theorems; they are proved equal to what `crack` computes. -/

/-- The prefix of a candidate list actually processed by the inner
loop: everything up to and including the first match. -/
def processed (target : List Char) : List (List Char) → List (List Char)
  | [] => []
  | g :: gs => g :: (if g = target then [] else processed target gs)

/-- The full sequence of guesses generated by a run that starts with
`found = False`: for each length in order, the processed prefix of that
length's candidates, stopping after the length where the match
occurred. -/
def attemptedGuesses (target A : List Char) : List Nat → List (List Char)
  | [] => []
  | L :: Ls =>
    let p := processed target (candidates A L)
    if target ∈ candidates A L then p else p ++ attemptedGuesses target A Ls

/-- The per-length attempt counts recorded by such a run. -/
def perLengthCounts (target A : List Char) : List Nat → List (Nat × Nat)
  | [] => []
  | L :: Ls =>
    let p := processed target (candidates A L)
    if target ∈ candidates A L then [(L, p.length)]
    else (L, p.length) :: perLengthCounts target A Ls

/-- The attempt counts at which checkpoints fire over a stretch of `n`
attempts starting from a previous total of `a`: the multiples of
100000 in `(a, a + n]`. -/
def ckRange (a n : Nat) : List Nat :=
  ((List.range n).map (fun i => a + 1 + i)).filter (fun m => m % 100000 = 0)

/-- `Modelled from the spec:` the Combinatorial Enumerator's ordering
contract — the `i`-th length-`L` candidate reads `i` as an `L`-digit
base-`k` numeral, leftmost digit most significant, digits drawn from
the alphabet in order. -/
def specNumeral (A : List Char) : Nat → Nat → List Char
  | 0, _ => []
  | L + 1, i => specNumeral A L (i / A.length) ++ [A.getD (i % A.length) ' ']

/-! ## Basic lemmas about one attempt -/

@[simp] lemma attempt_password (clock : Nat → ℚ) (s : PasswordCracker)
    (g : List Char) : (attempt clock s g).password = s.password := rfl

@[simp] lemma attempt_charset (clock : Nat → ℚ) (s : PasswordCracker)
    (g : List Char) : (attempt clock s g).charset = s.charset := rfl

@[simp] lemma attempt_verbose (clock : Nat → ℚ) (s : PasswordCracker)
    (g : List Char) : (attempt clock s g).verbose = s.verbose := rfl

@[simp] lemma attempt_max_length (clock : Nat → ℚ) (s : PasswordCracker)
    (g : List Char) : (attempt clock s g).max_length = s.max_length := rfl

@[simp] lemma attempt_start_time (clock : Nat → ℚ) (s : PasswordCracker)
    (g : List Char) : (attempt clock s g).start_time = s.start_time := rfl

@[simp] lemma attempt_end_time (clock : Nat → ℚ) (s : PasswordCracker)
    (g : List Char) : (attempt clock s g).end_time = s.end_time := rfl

@[simp] lemma attempt_length_attempts (clock : Nat → ℚ) (s : PasswordCracker)
    (g : List Char) :
    (attempt clock s g).length_attempts = s.length_attempts := rfl

@[simp] lemma attempt_attempts (clock : Nat → ℚ) (s : PasswordCracker)
    (g : List Char) : (attempt clock s g).attempts = s.attempts + 1 := rfl

@[simp] lemma attempt_hits (clock : Nat → ℚ) (s : PasswordCracker)
    (g : List Char) :
    (attempt clock s g).charset_hits = addHits s.charset_hits g := rfl

@[simp] lemma attempt_found (clock : Nat → ℚ) (s : PasswordCracker)
    (g : List Char) :
    (attempt clock s g).found = if g = s.password then true else s.found := rfl

@[simp] lemma attempt_cracked (clock : Nat → ℚ) (s : PasswordCracker)
    (g : List Char) :
    (attempt clock s g).cracked_password
      = if g = s.password then some g else s.cracked_password := rfl

@[simp] lemma attempt_checkpoints (clock : Nat → ℚ) (s : PasswordCracker)
    (g : List Char) :
    (attempt clock s g).time_checkpoints = newCheckpoints clock s := rfl

@[simp] lemma withLA_password (s : PasswordCracker) (x : List (Nat × Nat)) :
    (withLA s x).password = s.password := rfl

@[simp] lemma withLA_charset (s : PasswordCracker) (x : List (Nat × Nat)) :
    (withLA s x).charset = s.charset := rfl

@[simp] lemma withLA_verbose (s : PasswordCracker) (x : List (Nat × Nat)) :
    (withLA s x).verbose = s.verbose := rfl

@[simp] lemma withLA_max_length (s : PasswordCracker) (x : List (Nat × Nat)) :
    (withLA s x).max_length = s.max_length := rfl

@[simp] lemma withLA_attempts (s : PasswordCracker) (x : List (Nat × Nat)) :
    (withLA s x).attempts = s.attempts := rfl

@[simp] lemma withLA_start_time (s : PasswordCracker) (x : List (Nat × Nat)) :
    (withLA s x).start_time = s.start_time := rfl

@[simp] lemma withLA_end_time (s : PasswordCracker) (x : List (Nat × Nat)) :
    (withLA s x).end_time = s.end_time := rfl

@[simp] lemma withLA_found (s : PasswordCracker) (x : List (Nat × Nat)) :
    (withLA s x).found = s.found := rfl

@[simp] lemma withLA_cracked (s : PasswordCracker) (x : List (Nat × Nat)) :
    (withLA s x).cracked_password = s.cracked_password := rfl

@[simp] lemma withLA_hits (s : PasswordCracker) (x : List (Nat × Nat)) :
    (withLA s x).charset_hits = s.charset_hits := rfl

@[simp] lemma withLA_checkpoints (s : PasswordCracker) (x : List (Nat × Nat)) :
    (withLA s x).time_checkpoints = s.time_checkpoints := rfl

@[simp] lemma withLA_LA (s : PasswordCracker) (x : List (Nat × Nat)) :
    (withLA s x).length_attempts = x := rfl

@[simp] lemma withLA_withLA (s : PasswordCracker) (x y : List (Nat × Nat)) :
    withLA (withLA s x) y = withLA s y := rfl

@[simp] lemma withStart_password (s : PasswordCracker) (t : ℚ) :
    (withStart s t).password = s.password := rfl

@[simp] lemma withStart_charset (s : PasswordCracker) (t : ℚ) :
    (withStart s t).charset = s.charset := rfl

@[simp] lemma withStart_verbose (s : PasswordCracker) (t : ℚ) :
    (withStart s t).verbose = s.verbose := rfl

@[simp] lemma withStart_max_length (s : PasswordCracker) (t : ℚ) :
    (withStart s t).max_length = s.max_length := rfl

@[simp] lemma withStart_attempts (s : PasswordCracker) (t : ℚ) :
    (withStart s t).attempts = s.attempts := rfl

@[simp] lemma withStart_start_time (s : PasswordCracker) (t : ℚ) :
    (withStart s t).start_time = some t := rfl

@[simp] lemma withStart_end_time (s : PasswordCracker) (t : ℚ) :
    (withStart s t).end_time = s.end_time := rfl

@[simp] lemma withStart_found (s : PasswordCracker) (t : ℚ) :
    (withStart s t).found = s.found := rfl

@[simp] lemma withStart_cracked (s : PasswordCracker) (t : ℚ) :
    (withStart s t).cracked_password = s.cracked_password := rfl

@[simp] lemma withStart_hits (s : PasswordCracker) (t : ℚ) :
    (withStart s t).charset_hits = s.charset_hits := rfl

@[simp] lemma withStart_checkpoints (s : PasswordCracker) (t : ℚ) :
    (withStart s t).time_checkpoints = s.time_checkpoints := rfl

@[simp] lemma withStart_LA (s : PasswordCracker) (t : ℚ) :
    (withStart s t).length_attempts = s.length_attempts := rfl

@[simp] lemma withEnd_password (s : PasswordCracker) (t : ℚ) :
    (withEnd s t).password = s.password := rfl

@[simp] lemma withEnd_charset (s : PasswordCracker) (t : ℚ) :
    (withEnd s t).charset = s.charset := rfl

@[simp] lemma withEnd_verbose (s : PasswordCracker) (t : ℚ) :
    (withEnd s t).verbose = s.verbose := rfl

@[simp] lemma withEnd_max_length (s : PasswordCracker) (t : ℚ) :
    (withEnd s t).max_length = s.max_length := rfl

@[simp] lemma withEnd_attempts (s : PasswordCracker) (t : ℚ) :
    (withEnd s t).attempts = s.attempts := rfl

@[simp] lemma withEnd_start_time (s : PasswordCracker) (t : ℚ) :
    (withEnd s t).start_time = s.start_time := rfl

@[simp] lemma withEnd_end_time (s : PasswordCracker) (t : ℚ) :
    (withEnd s t).end_time = some t := rfl

@[simp] lemma withEnd_found (s : PasswordCracker) (t : ℚ) :
    (withEnd s t).found = s.found := rfl

@[simp] lemma withEnd_cracked (s : PasswordCracker) (t : ℚ) :
    (withEnd s t).cracked_password = s.cracked_password := rfl

@[simp] lemma withEnd_hits (s : PasswordCracker) (t : ℚ) :
    (withEnd s t).charset_hits = s.charset_hits := rfl

@[simp] lemma withEnd_checkpoints (s : PasswordCracker) (t : ℚ) :
    (withEnd s t).time_checkpoints = s.time_checkpoints := rfl

@[simp] lemma withEnd_LA (s : PasswordCracker) (t : ℚ) :
    (withEnd s t).length_attempts = s.length_attempts := rfl

lemma addHits_apply (g : List Char) :
    ∀ (h : Char → Nat) (c : Char), addHits h g c = h c + g.count c := by
  induction g with
  | nil => intro h c; simp [addHits]
  | cons a l ih =>
    intro h c
    rw [addHits, ih]
    by_cases hca : c = a
    · subst hca; simp [List.count_cons]; omega
    · simp [List.count_cons, hca, Ne.symm hca]

/-! ## Lemmas about the processed prefix -/

lemma processed_of_not_mem {target : List Char} :
    ∀ {gs : List (List Char)}, target ∉ gs → processed target gs = gs := by
  intro gs
  induction gs with
  | nil => intro _; rfl
  | cons g gs ih =>
    intro h
    rw [processed]
    have hg : g ≠ target := fun he => h (he ▸ List.mem_cons_self g gs)
    rw [if_neg hg, ih (fun hm => h (List.mem_cons_of_mem g hm))]

lemma length_processed_le (target : List Char) :
    ∀ gs : List (List Char), (processed target gs).length ≤ gs.length := by
  intro gs
  induction gs with
  | nil => simp [processed]
  | cons g gs ih =>
    rw [processed]
    by_cases hg : g = target
    · simp [hg]
    · simp only [if_neg hg, List.length_cons]
      omega

lemma length_processed_pos (target : List Char) (gs : List (List Char))
    (h : gs ≠ []) : 0 < (processed target gs).length := by
  cases gs with
  | nil => exact absurd rfl h
  | cons g gs => rw [processed]; simp

lemma mem_of_processed_length_lt {target : List Char} {gs : List (List Char)}
    (h : (processed target gs).length < gs.length) : target ∈ gs := by
  by_contra hmem
  rw [processed_of_not_mem hmem] at h
  exact lt_irrefl _ h

lemma processed_subset {target : List Char} :
    ∀ {gs x}, x ∈ processed target gs → x ∈ gs := by
  intro gs
  induction gs with
  | nil => intro x h; simp [processed] at h
  | cons g gs ih =>
    intro x h
    rw [processed] at h
    rcases List.mem_cons.1 h with h1 | h2
    · exact h1 ▸ List.mem_cons_self g gs
    · by_cases hg : g = target
      · rw [if_pos hg] at h2; simp at h2
      · rw [if_neg hg] at h2
        exact List.mem_cons_of_mem g (ih h2)

lemma mem_processed_self {target : List Char} :
    ∀ {gs : List (List Char)}, target ∈ gs → target ∈ processed target gs := by
  intro gs
  induction gs with
  | nil => intro h; simp at h
  | cons g gs ih =>
    intro h
    rw [processed]
    by_cases hg : g = target
    · rw [hg]; exact List.mem_cons_self target _
    · rw [if_neg hg]
      rcases List.mem_cons.1 h with h1 | h2
      · exact absurd h1.symm hg
      · exact List.mem_cons_of_mem g (ih h2)

/-! ## Folding `attempt` over a list of guesses -/

lemma foldl_password (clock : Nat → ℚ) (ps : List (List Char)) :
    ∀ s, (List.foldl (attempt clock) s ps).password = s.password := by
  induction ps with
  | nil => intro s; rfl
  | cons g gs ih => intro s; rw [List.foldl_cons, ih]; rfl

lemma foldl_charset (clock : Nat → ℚ) (ps : List (List Char)) :
    ∀ s, (List.foldl (attempt clock) s ps).charset = s.charset := by
  induction ps with
  | nil => intro s; rfl
  | cons g gs ih => intro s; rw [List.foldl_cons, ih]; rfl

lemma foldl_verbose (clock : Nat → ℚ) (ps : List (List Char)) :
    ∀ s, (List.foldl (attempt clock) s ps).verbose = s.verbose := by
  induction ps with
  | nil => intro s; rfl
  | cons g gs ih => intro s; rw [List.foldl_cons, ih]; rfl

lemma foldl_max_length (clock : Nat → ℚ) (ps : List (List Char)) :
    ∀ s, (List.foldl (attempt clock) s ps).max_length = s.max_length := by
  induction ps with
  | nil => intro s; rfl
  | cons g gs ih => intro s; rw [List.foldl_cons, ih]; rfl

lemma foldl_start_time (clock : Nat → ℚ) (ps : List (List Char)) :
    ∀ s, (List.foldl (attempt clock) s ps).start_time = s.start_time := by
  induction ps with
  | nil => intro s; rfl
  | cons g gs ih => intro s; rw [List.foldl_cons, ih]; rfl

lemma foldl_end_time (clock : Nat → ℚ) (ps : List (List Char)) :
    ∀ s, (List.foldl (attempt clock) s ps).end_time = s.end_time := by
  induction ps with
  | nil => intro s; rfl
  | cons g gs ih => intro s; rw [List.foldl_cons, ih]; rfl

lemma foldl_length_attempts (clock : Nat → ℚ) (ps : List (List Char)) :
    ∀ s, (List.foldl (attempt clock) s ps).length_attempts
      = s.length_attempts := by
  induction ps with
  | nil => intro s; rfl
  | cons g gs ih => intro s; rw [List.foldl_cons, ih]; rfl

lemma foldl_attempts (clock : Nat → ℚ) (ps : List (List Char)) :
    ∀ s, (List.foldl (attempt clock) s ps).attempts
      = s.attempts + ps.length := by
  induction ps with
  | nil => intro s; simp
  | cons g gs ih =>
    intro s
    rw [List.foldl_cons, ih, attempt_attempts, List.length_cons]
    omega

lemma foldl_found (clock : Nat → ℚ) (ps : List (List Char)) :
    ∀ s, (List.foldl (attempt clock) s ps).found = true
      ↔ (s.found = true ∨ s.password ∈ ps) := by
  induction ps with
  | nil => intro s; simp
  | cons g gs ih =>
    intro s
    rw [List.foldl_cons, ih, attempt_found, attempt_password, List.mem_cons]
    by_cases hg : g = s.password
    · simp [hg]
    · simp only [if_neg hg]
      constructor
      · rintro (h | h)
        · exact Or.inl h
        · exact Or.inr (Or.inr h)
      · rintro (h | h | h)
        · exact Or.inl h
        · exact absurd h.symm hg
        · exact Or.inr h

lemma foldl_cracked (clock : Nat → ℚ) (ps : List (List Char)) :
    ∀ s, (List.foldl (attempt clock) s ps).cracked_password
      = if s.password ∈ ps then some s.password else s.cracked_password := by
  induction ps with
  | nil => intro s; simp
  | cons g gs ih =>
    intro s
    rw [List.foldl_cons, ih, attempt_password, attempt_cracked]
    by_cases hm : s.password ∈ gs
    · rw [if_pos hm, if_pos (List.mem_cons_of_mem g hm)]
    · rw [if_neg hm]
      by_cases hg : g = s.password
      · rw [if_pos hg, hg]
        simp
      · rw [if_neg hg, if_neg (fun h => by
          rcases List.mem_cons.1 h with h1 | h2
          · exact hg h1.symm
          · exact hm h2)]

lemma foldl_hits (clock : Nat → ℚ) (ps : List (List Char)) :
    ∀ s c, (List.foldl (attempt clock) s ps).charset_hits c
      = s.charset_hits c + (ps.map (fun g => g.count c)).sum := by
  induction ps with
  | nil => intro s c; simp
  | cons g gs ih =>
    intro s c
    rw [List.foldl_cons, ih, attempt_hits, addHits_apply]
    simp only [List.map_cons, List.sum_cons]
    omega

lemma foldl_checkpoints_quiet (clock : Nat → ℚ) (ps : List (List Char)) :
    ∀ s, s.verbose = false →
      (List.foldl (attempt clock) s ps).time_checkpoints
        = s.time_checkpoints := by
  induction ps with
  | nil => intro s _; rfl
  | cons g gs ih =>
    intro s hv
    rw [List.foldl_cons, ih _ (by rw [attempt_verbose]; exact hv),
      attempt_checkpoints, newCheckpoints, if_neg]
    simp [hv]

lemma ckRange_succ (a n : Nat) :
    ckRange a (n + 1)
      = (if (a + 1) % 100000 = 0 then [a + 1] else []) ++ ckRange (a + 1) n := by
  rw [ckRange, ckRange, List.range_succ_eq_map, List.map_cons, List.map_map]
  have hcomp : ((fun i => a + 1 + i) ∘ Nat.succ) = fun i => a + 1 + 1 + i := by
    funext i
    show a + 1 + (i + 1) = a + 1 + 1 + i
    omega
  rw [hcomp]
  simp only [Nat.add_zero, List.filter_cons]
  by_cases hm : (a + 1) % 100000 = 0
  · simp [hm]
  · simp [hm]

lemma foldl_checkpoints_map (clock : Nat → ℚ) (ps : List (List Char)) :
    ∀ s, (List.foldl (attempt clock) s ps).time_checkpoints.map
        Checkpoint.attempts
      = s.time_checkpoints.map Checkpoint.attempts
        ++ (if s.verbose = true then ckRange s.attempts ps.length else []) := by
  induction ps with
  | nil => intro s; simp [ckRange]
  | cons g gs ih =>
    intro s
    simp only [List.foldl_cons, ih, attempt_checkpoints, attempt_verbose,
      attempt_attempts, List.length_cons, ckRange_succ]
    by_cases hv : s.verbose = true
    · rw [if_pos hv, if_pos hv, newCheckpoints]
      by_cases hmm : (s.attempts + 1) % 100000 = 0
      · rw [if_pos ⟨hv, hmm⟩, if_pos hmm]
        simp
      · rw [if_neg (fun h => hmm h.2), if_neg hmm]
        simp
    · rw [if_neg hv, if_neg hv, newCheckpoints, if_neg (fun h => hv h.1)]

lemma runLength_eq_foldl (clock : Nat → ℚ) :
    ∀ (gs : List (List Char)) (s : PasswordCracker),
      runLength clock s gs
        = List.foldl (attempt clock) s (processed s.password gs) := by
  intro gs
  induction gs with
  | nil => intro s; rfl
  | cons g gs ih =>
    intro s
    rw [runLength, processed]
    by_cases hg : g = s.password
    · rw [if_pos hg, if_pos hg]
      rfl
    · rw [if_neg hg, if_neg hg, List.foldl_cons, ih]
      simp only [attempt_password]

lemma mem_processed_iff {target : List Char} {gs : List (List Char)} :
    target ∈ processed target gs ↔ target ∈ gs :=
  ⟨processed_subset, mem_processed_self⟩

lemma setAssoc_not_mem {m : List (Nat × Nat)} {k v : Nat}
    (h : k ∉ m.map Prod.fst) : setAssoc m k v = m ++ [(k, v)] := by
  rw [setAssoc, if_neg h]

lemma attempt_withLA (clock : Nat → ℚ) (s : PasswordCracker)
    (x : List (Nat × Nat)) (g : List Char) :
    attempt clock (withLA s x) g = withLA (attempt clock s g) x := rfl

lemma foldl_withLA (clock : Nat → ℚ) (ps : List (List Char)) :
    ∀ (s : PasswordCracker) (x : List (Nat × Nat)),
      List.foldl (attempt clock) (withLA s x) ps
        = withLA (List.foldl (attempt clock) s ps) x := by
  induction ps with
  | nil => intro s x; rfl
  | cons g gs ih =>
    intro s x
    rw [List.foldl_cons, attempt_withLA, ih, List.foldl_cons]

/-- The structural description of the outer loop: starting from a state
that is not yet `found` and whose `length_attempts` dict has no key
among the lengths to visit (which are pairwise distinct), `runLengths`
is exactly one fold of `attempt` over `attemptedGuesses`, together with
appending `perLengthCounts` to the dict. -/
lemma runLengths_spec (clock : Nat → ℚ) :
    ∀ (Ls : List Nat) (s : PasswordCracker), s.found = false →
      (∀ L ∈ Ls, L ∉ s.length_attempts.map Prod.fst) → Ls.Nodup →
      runLengths clock s Ls
        = withLA (List.foldl (attempt clock) s
              (attemptedGuesses s.password s.charset Ls))
            (s.length_attempts ++ perLengthCounts s.password s.charset Ls) := by
  intro Ls
  induction Ls with
  | nil =>
    intro s _ _ _
    rw [runLengths, attemptedGuesses, perLengthCounts, List.foldl_nil,
      List.append_nil, withLA]
  | cons L Ls ih =>
    intro s hf hk hnd
    rw [runLengths, attemptedGuesses, perLengthCounts]
    rw [runLength_eq_foldl]
    set P := processed s.password (candidates s.charset L) with hP
    have hLA : (List.foldl (attempt clock) s P).length_attempts
        = s.length_attempts := foldl_length_attempts clock P s
    have hAtt : (List.foldl (attempt clock) s P).attempts
        = s.attempts + P.length := foldl_attempts clock P s
    have hsub : s.attempts + P.length - s.attempts = P.length := by omega
    have hset : setAssoc (List.foldl (attempt clock) s P).length_attempts L
          ((List.foldl (attempt clock) s P).attempts - s.attempts)
        = s.length_attempts ++ [(L, P.length)] := by
      rw [hLA, hAtt, hsub,
        setAssoc_not_mem (hk L (List.mem_cons_self L Ls))]
    have hfound : (List.foldl (attempt clock) s P).found = true
        ↔ s.password ∈ candidates s.charset L := by
      rw [foldl_found, hf, hP, mem_processed_iff]
      simp
    rw [hset]
    set s2 := withLA (List.foldl (attempt clock) s P)
      (s.length_attempts ++ [(L, P.length)]) with hs2
    by_cases hmem : s.password ∈ candidates s.charset L
    · rw [if_pos hmem, if_pos hmem,
        if_pos (show s2.found = true by
          rw [hs2, withLA_found]; exact hfound.2 hmem)]
    · have hff : (List.foldl (attempt clock) s P).found = false := by
        cases hb : (List.foldl (attempt clock) s P).found
        · rfl
        · exact absurd (hfound.1 hb) hmem
      have hs2f : s2.found = false := by rw [hs2, withLA_found, hff]
      rw [if_neg hmem, if_neg hmem,
        if_neg (show ¬ s2.found = true by rw [hs2f]; simp)]
      rw [ih s2 hs2f
        (by
          intro L' hL'
          rw [hs2, withLA_LA, List.map_append]
          intro hmem'
          rcases List.mem_append.1 hmem' with h1 | h2
          · exact hk L' (List.mem_cons_of_mem L hL') h1
          · simp only [List.map_cons, List.map_nil] at h2
            have hLL : L' = L := by simpa using h2
            exact absurd (hLL ▸ hL') (List.Nodup.not_mem hnd))
        (List.Nodup.of_cons hnd)]
      rw [hs2, withLA_password, withLA_charset, foldl_password, foldl_charset,
        withLA_LA, foldl_withLA, withLA_withLA, ← List.foldl_append,
        List.append_assoc, List.singleton_append]

/-! ## Lemmas about the Combinatorial Enumerator -/

lemma length_candidates (A : List Char) :
    ∀ L, (candidates A L).length = A.length ^ L := by
  intro L
  induction L with
  | zero => rfl
  | succ n ih =>
    rw [candidates, List.length_flatMap]
    have hmap : (candidates A n).map
          (List.length ∘ fun t => A.map (fun c => t ++ [c]))
        = (candidates A n).map (fun _ => A.length) := by
      apply List.map_congr_left
      intro t _
      simp
    rw [hmap, List.map_const', List.sum_replicate, smul_eq_mul, ih, pow_succ]

lemma length_of_mem_candidates {A : List Char} :
    ∀ {L g}, g ∈ candidates A L → g.length = L := by
  intro L
  induction L with
  | zero =>
    intro g hg
    rw [candidates] at hg
    simp at hg
    rw [hg]
    rfl
  | succ n ih =>
    intro g hg
    rw [candidates, List.mem_flatMap] at hg
    obtain ⟨t, ht, hg⟩ := hg
    rw [List.mem_map] at hg
    obtain ⟨c, _, rfl⟩ := hg
    rw [List.length_append, ih ht]
    rfl

lemma candidates_ne_nil {A : List Char} (hA : A ≠ []) (L : Nat) :
    candidates A L ≠ [] := by
  have hk : 0 < A.length := List.length_pos.2 hA
  have : 0 < (candidates A L).length := by
    rw [length_candidates]
    exact pow_pos hk L
  exact List.length_pos.1 this

lemma list_map_eq_range_getD {α β : Type} (d : α) (g : α → β) :
    ∀ A : List α,
      A.map g = (List.range A.length).map (fun i => g (A.getD i d)) := by
  intro A
  induction A with
  | nil => simp
  | cons a A ih =>
    have hc : ((fun i => g ((a :: A).getD i d)) ∘ Nat.succ)
        = fun i => g (A.getD i d) := by
      funext i
      rfl
    rw [List.length_cons, List.range_succ_eq_map, List.map_cons, List.map_cons,
      List.map_map, hc, ← ih, List.getD_cons_zero]

lemma range_mul_flatMap (A : List Char) (f : Nat → List Char) :
    ∀ m : Nat,
      ((List.range m).map f).flatMap (fun t => A.map (fun c => t ++ [c]))
        = (List.range (m * A.length)).map
            (fun i => f (i / A.length) ++ [A.getD (i % A.length) ' ']) := by
  intro m
  induction m with
  | zero => simp
  | succ m ih =>
    rw [List.range_succ, List.map_append, List.flatMap_append, ih,
      Nat.succ_mul, List.range_add, List.map_append, List.map_map]
    congr 1
    rw [List.map_cons, List.map_nil, List.flatMap_cons, List.flatMap_nil,
      List.append_nil, list_map_eq_range_getD ' ' (fun c => f m ++ [c]) A]
    apply List.map_congr_left
    intro d hd
    rw [List.mem_range] at hd
    have hk : 0 < A.length := Nat.lt_of_le_of_lt (Nat.zero_le d) hd
    have hdiv : (m * A.length + d) / A.length = m := by
      rw [Nat.add_comm, Nat.mul_comm, Nat.add_mul_div_left _ _ hk,
        Nat.div_eq_of_lt hd, Nat.zero_add]
    have hmod : (m * A.length + d) % A.length = d := by
      rw [Nat.add_comm, Nat.mul_comm, Nat.add_mul_mod_self_left,
        Nat.mod_eq_of_lt hd]
    rw [Function.comp, hdiv, hmod]

/-- The Enumerator refinement: for every alphabet and length, the
`itertools.product` order is exactly the base-`k` counting order of the
spec (`specNumeral`). -/
lemma candidates_eq_specNumeral (A : List Char) :
    ∀ L, candidates A L
      = (List.range (A.length ^ L)).map (specNumeral A L) := by
  intro L
  induction L with
  | zero => rfl
  | succ n ih =>
    rw [candidates, ih, range_mul_flatMap, ← pow_succ]
    apply List.map_congr_left
    intro i _
    rw [specNumeral]

/-! ## The freshly constructed engine and a complete `crack` run -/

@[simp] lemma init_password (pw : List Char) (ml : Int)
    (cs : Option (List Char)) (v : Bool) :
    (init pw ml cs v).password = pw := rfl

@[simp] lemma init_max_length (pw : List Char) (ml : Int)
    (cs : Option (List Char)) (v : Bool) :
    (init pw ml cs v).max_length = ml := rfl

@[simp] lemma init_verbose (pw : List Char) (ml : Int)
    (cs : Option (List Char)) (v : Bool) :
    (init pw ml cs v).verbose = v := rfl

@[simp] lemma init_attempts (pw : List Char) (ml : Int)
    (cs : Option (List Char)) (v : Bool) :
    (init pw ml cs v).attempts = 0 := rfl

@[simp] lemma init_found (pw : List Char) (ml : Int)
    (cs : Option (List Char)) (v : Bool) :
    (init pw ml cs v).found = false := rfl

@[simp] lemma init_cracked (pw : List Char) (ml : Int)
    (cs : Option (List Char)) (v : Bool) :
    (init pw ml cs v).cracked_password = none := rfl

@[simp] lemma init_LA (pw : List Char) (ml : Int)
    (cs : Option (List Char)) (v : Bool) :
    (init pw ml cs v).length_attempts = [] := rfl

@[simp] lemma init_hits (pw : List Char) (ml : Int)
    (cs : Option (List Char)) (v : Bool) (c : Char) :
    (init pw ml cs v).charset_hits c = 0 := rfl

@[simp] lemma init_checkpoints (pw : List Char) (ml : Int)
    (cs : Option (List Char)) (v : Bool) :
    (init pw ml cs v).time_checkpoints = [] := rfl

lemma init_charset_ne_nil (pw : List Char) (ml : Int)
    (cs : Option (List Char)) (v : Bool) :
    (init pw ml cs v).charset ≠ [] := by
  show (if (cs.getD []).isEmpty then defaultCharset
    else cs.getD []) ≠ []
  by_cases h : (cs.getD []).isEmpty
  · rw [if_pos h]
    intro hc
    have : defaultCharset.length = 0 := by rw [hc]; rfl
    rw [show defaultCharset.length = 94 from rfl] at this
    exact absurd this (by omega)
  · rw [if_neg h]
    intro hc
    rw [hc] at h
    exact h rfl

lemma lengthList_nodup (m : Int) : (lengthList m).Nodup := by
  rw [lengthList]
  exact (List.nodup_range _).map (fun a b h => by omega)

lemma mem_lengthList {m : Int} {L : Nat} :
    L ∈ lengthList m ↔ 1 ≤ L ∧ L ≤ m.toNat := by
  rw [lengthList]
  constructor
  · intro h
    rw [List.mem_map] at h
    obtain ⟨i, hi, he⟩ := h
    rw [List.mem_range] at hi
    omega
  · intro ⟨h1, h2⟩
    rw [List.mem_map]
    exact ⟨L - 1, List.mem_range.2 (by omega), by omega⟩

/-- A complete run on a freshly constructed engine is one fold of
`attempt` over `attemptedGuesses`, with the per-length dict built from
`perLengthCounts`, the start instant `t` and the end instant `e`. -/
lemma crack_init (pw : List Char) (ml : Int) (cs : Option (List Char))
    (v : Bool) (t e : ℚ) (clock : Nat → ℚ) :
    crack t clock e (init pw ml cs v)
      = withEnd (withLA (List.foldl (attempt clock)
            (withStart (init pw ml cs v) t)
            (attemptedGuesses pw (init pw ml cs v).charset (lengthList ml)))
          (perLengthCounts pw (init pw ml cs v).charset (lengthList ml))) e := by
  rw [crack, init_max_length]
  rw [runLengths_spec clock (lengthList ml) (withStart (init pw ml cs v) t)
    (by rw [withStart_found, init_found])
    (by
      intro L hL
      rw [withStart_LA, init_LA]
      simp)
    (lengthList_nodup ml)]
  rw [withStart_password, withStart_charset, withStart_LA, init_password,
    init_LA, List.nil_append]

/-! ## Lemmas about `attemptedGuesses` and `perLengthCounts` -/

lemma mem_attemptedGuesses_iff {target A : List Char} :
    ∀ {Ls : List Nat}, target ∈ attemptedGuesses target A Ls
      ↔ ∃ L ∈ Ls, target ∈ candidates A L := by
  intro Ls
  induction Ls with
  | nil => simp [attemptedGuesses]
  | cons L Ls ih =>
    rw [attemptedGuesses]
    by_cases hm : target ∈ candidates A L
    · rw [if_pos hm]
      constructor
      · intro _; exact ⟨L, List.mem_cons_self L Ls, hm⟩
      · intro _; exact mem_processed_self hm
    · rw [if_neg hm]
      rw [List.mem_append, mem_processed_iff, ih]
      constructor
      · rintro (h | ⟨L', hL', hmm⟩)
        · exact absurd h hm
        · exact ⟨L', List.mem_cons_of_mem L hL', hmm⟩
      · rintro ⟨L', hL', hmm⟩
        rcases List.mem_cons.1 hL' with rfl | hL'
        · exact absurd hmm hm
        · exact Or.inr ⟨L', hL', hmm⟩

lemma attemptedGuesses_all_miss {target A : List Char} :
    ∀ {Ls : List Nat}, (∀ L ∈ Ls, target ∉ candidates A L) →
      attemptedGuesses target A Ls = Ls.flatMap (candidates A) := by
  intro Ls
  induction Ls with
  | nil => intro _; rfl
  | cons L Ls ih =>
    intro h
    rw [attemptedGuesses, List.flatMap_cons]
    rw [if_neg (h L (List.mem_cons_self L Ls))]
    rw [processed_of_not_mem (h L (List.mem_cons_self L Ls)),
      ih (fun L' hL' => h L' (List.mem_cons_of_mem L hL'))]

lemma attemptedGuesses_append_miss {target A : List Char} :
    ∀ {Ls₁ Ls₂ : List Nat}, (∀ L ∈ Ls₁, target ∉ candidates A L) →
      attemptedGuesses target A (Ls₁ ++ Ls₂)
        = Ls₁.flatMap (candidates A) ++ attemptedGuesses target A Ls₂ := by
  intro Ls₁
  induction Ls₁ with
  | nil => intro Ls₂ _; rfl
  | cons L Ls ih =>
    intro Ls₂ h
    rw [List.cons_append, attemptedGuesses, List.flatMap_cons]
    rw [if_neg (h L (List.mem_cons_self L Ls))]
    rw [processed_of_not_mem (h L (List.mem_cons_self L Ls)),
      ih (fun L' hL' => h L' (List.mem_cons_of_mem L hL')), List.append_assoc]

lemma attemptedGuesses_cons_hit {target A : List Char} {L : Nat}
    (Ls : List Nat) (h : target ∈ candidates A L) :
    attemptedGuesses target A (L :: Ls)
      = processed target (candidates A L) := by
  rw [attemptedGuesses, if_pos h]

lemma perLengthCounts_sum {target A : List Char} :
    ∀ Ls : List Nat, ((perLengthCounts target A Ls).map Prod.snd).sum
      = (attemptedGuesses target A Ls).length := by
  intro Ls
  induction Ls with
  | nil => rfl
  | cons L Ls ih =>
    rw [perLengthCounts, attemptedGuesses]
    by_cases hm : target ∈ candidates A L
    · rw [if_pos hm, if_pos hm]
      simp
    · rw [if_neg hm, if_neg hm]
      rw [List.map_cons, List.sum_cons, ih, List.length_append]

lemma perLengthCounts_mem {target A : List Char} :
    ∀ {Ls : List Nat} {p : Nat × Nat}, p ∈ perLengthCounts target A Ls →
      p.1 ∈ Ls ∧ p.2 = (processed target (candidates A p.1)).length := by
  intro Ls
  induction Ls with
  | nil => intro p h; simp [perLengthCounts] at h
  | cons L Ls ih =>
    intro p h
    rw [perLengthCounts] at h
    by_cases hm : target ∈ candidates A L
    · rw [if_pos hm] at h
      simp only [List.mem_singleton] at h
      rw [h]
      exact ⟨List.mem_cons_self L Ls, rfl⟩
    · rw [if_neg hm] at h
      rcases List.mem_cons.1 h with h1 | h2
      · rw [h1]
        exact ⟨List.mem_cons_self L Ls, rfl⟩
      · obtain ⟨hmem, hlen⟩ := ih h2
        exact ⟨List.mem_cons_of_mem L hmem, hlen⟩

/-! ## Field values after a complete fresh run -/

lemma crackInit_password (pw : List Char) (ml : Int) (cs : Option (List Char))
    (v : Bool) (t e : ℚ) (clock : Nat → ℚ) :
    (crack t clock e (init pw ml cs v)).password = pw := by
  rw [crack_init, withEnd_password, withLA_password, foldl_password,
    withStart_password, init_password]

lemma crackInit_charset (pw : List Char) (ml : Int) (cs : Option (List Char))
    (v : Bool) (t e : ℚ) (clock : Nat → ℚ) :
    (crack t clock e (init pw ml cs v)).charset = (init pw ml cs v).charset := by
  rw [crack_init, withEnd_charset, withLA_charset, foldl_charset,
    withStart_charset]

lemma crackInit_start_time (pw : List Char) (ml : Int)
    (cs : Option (List Char)) (v : Bool) (t e : ℚ) (clock : Nat → ℚ) :
    (crack t clock e (init pw ml cs v)).start_time = some t := by
  rw [crack_init, withEnd_start_time, withLA_start_time, foldl_start_time,
    withStart_start_time]

lemma crackInit_end_time (pw : List Char) (ml : Int)
    (cs : Option (List Char)) (v : Bool) (t e : ℚ) (clock : Nat → ℚ) :
    (crack t clock e (init pw ml cs v)).end_time = some e := by
  rw [crack_init, withEnd_end_time]

lemma crackInit_attempts (pw : List Char) (ml : Int) (cs : Option (List Char))
    (v : Bool) (t e : ℚ) (clock : Nat → ℚ) :
    (crack t clock e (init pw ml cs v)).attempts
      = (attemptedGuesses pw (init pw ml cs v).charset (lengthList ml)).length := by
  rw [crack_init, withEnd_attempts, withLA_attempts, foldl_attempts,
    withStart_attempts, init_attempts, Nat.zero_add]

lemma crackInit_found (pw : List Char) (ml : Int) (cs : Option (List Char))
    (v : Bool) (t e : ℚ) (clock : Nat → ℚ) :
    (crack t clock e (init pw ml cs v)).found = true
      ↔ pw ∈ attemptedGuesses pw (init pw ml cs v).charset (lengthList ml) := by
  rw [crack_init, withEnd_found, withLA_found, foldl_found, withStart_found,
    init_found, withStart_password, init_password]
  simp

lemma crackInit_found_iff_exists (pw : List Char) (ml : Int)
    (cs : Option (List Char)) (v : Bool) (t e : ℚ) (clock : Nat → ℚ) :
    (crack t clock e (init pw ml cs v)).found = true
      ↔ ∃ L ∈ lengthList ml, pw ∈ candidates (init pw ml cs v).charset L := by
  rw [crackInit_found, mem_attemptedGuesses_iff]

lemma crackInit_cracked (pw : List Char) (ml : Int) (cs : Option (List Char))
    (v : Bool) (t e : ℚ) (clock : Nat → ℚ) :
    (crack t clock e (init pw ml cs v)).cracked_password
      = if pw ∈ attemptedGuesses pw (init pw ml cs v).charset (lengthList ml)
        then some pw else none := by
  rw [crack_init, withEnd_cracked, withLA_cracked, foldl_cracked,
    withStart_password, init_password, withStart_cracked, init_cracked]

lemma crackInit_hits (pw : List Char) (ml : Int) (cs : Option (List Char))
    (v : Bool) (t e : ℚ) (clock : Nat → ℚ) (c : Char) :
    (crack t clock e (init pw ml cs v)).charset_hits c
      = ((attemptedGuesses pw (init pw ml cs v).charset (lengthList ml)).map
          (fun g => g.count c)).sum := by
  rw [crack_init, withEnd_hits, withLA_hits, foldl_hits, withStart_hits]
  rw [init_hits, Nat.zero_add]

lemma crackInit_LA (pw : List Char) (ml : Int) (cs : Option (List Char))
    (v : Bool) (t e : ℚ) (clock : Nat → ℚ) :
    (crack t clock e (init pw ml cs v)).length_attempts
      = perLengthCounts pw (init pw ml cs v).charset (lengthList ml) := by
  rw [crack_init, withEnd_LA, withLA_LA]

lemma crackInit_checkpoints_quiet (pw : List Char) (ml : Int)
    (cs : Option (List Char)) (t e : ℚ) (clock : Nat → ℚ) :
    (crack t clock e (init pw ml cs false)).time_checkpoints = [] := by
  rw [crack_init, withEnd_checkpoints, withLA_checkpoints,
    foldl_checkpoints_quiet _ _ _ (by rw [withStart_verbose, init_verbose]),
    withStart_checkpoints, init_checkpoints]

lemma crackInit_checkpoints_map (pw : List Char) (ml : Int)
    (cs : Option (List Char)) (v : Bool) (t e : ℚ) (clock : Nat → ℚ) :
    (crack t clock e (init pw ml cs v)).time_checkpoints.map Checkpoint.attempts
      = if v = true then
          ckRange 0
            (attemptedGuesses pw (init pw ml cs v).charset (lengthList ml)).length
        else [] := by
  rw [crack_init, withEnd_checkpoints, withLA_checkpoints,
    foldl_checkpoints_map, withStart_checkpoints, init_checkpoints,
    withStart_verbose, init_verbose, withStart_attempts, init_attempts]
  rw [List.map_nil, List.nil_append]

/-! ## Search-space sums and the length list -/

lemma length_flatMap_candidates (A : List Char) (m : Nat) :
    (((List.range m).map (· + 1)).flatMap (candidates A)).length
      = searchSpace A.length m := by
  rw [List.length_flatMap, List.map_map, searchSpace]
  apply congrArg
  apply List.map_congr_left
  intro i _
  show (candidates A (i + 1)).length = A.length ^ (i + 1)
  exact length_candidates A (i + 1)

lemma searchSpace_succ (k n : Nat) :
    searchSpace k (n + 1) = searchSpace k n + k ^ (n + 1) := by
  rw [searchSpace, searchSpace, List.range_succ, List.map_append,
    List.sum_append, List.map_cons, List.map_nil, List.sum_cons,
    List.sum_nil]
  omega

lemma lengthList_split (m : Int) (t : Nat) (h1 : 1 ≤ t) (h2 : t ≤ m.toNat) :
    ∃ Ls₂ : List Nat,
      lengthList m = (List.range (t - 1)).map (· + 1) ++ (t :: Ls₂) := by
  obtain ⟨u, rfl⟩ : ∃ u, t = u + 1 := ⟨t - 1, by omega⟩
  obtain ⟨c, hc⟩ : ∃ c, m.toNat = (u + 1) + c := ⟨m.toNat - (u + 1), by omega⟩
  refine ⟨(List.range c).map (fun i => u + 1 + i + 1), ?_⟩
  rw [lengthList, hc, List.range_add, List.map_append, List.range_succ,
    List.map_append, List.append_assoc, show u + 1 - 1 = u by omega]
  congr 1
  rw [List.map_cons, List.map_nil, List.singleton_append, List.map_map]
  congr 1

lemma not_mem_candidates_of_length_ne {A pw : List Char} {L : Nat}
    (h : pw.length ≠ L) : pw ∉ candidates A L :=
  fun hm => h (length_of_mem_candidates hm)

lemma roundTo_bounds (n : Nat) {q : ℚ} (h0 : 0 ≤ q) (h1 : q ≤ 100) :
    0 ≤ roundTo n q ∧ roundTo n q ≤ 100 := by
  rw [roundTo]
  have h10 : (0:ℚ) < (10:ℚ) ^ n := by positivity
  have hr0 : (0:ℤ) ≤ round (q * 10 ^ n) := by
    rw [round_eq]
    apply Int.le_floor.2
    push_cast
    positivity
  have hrU : round (q * 10 ^ n) ≤ 100 * 10 ^ n := by
    rw [round_eq]
    apply Int.floor_le_iff.2
    push_cast
    nlinarith
  constructor
  · apply div_nonneg _ h10.le
    exact_mod_cast hr0
  · rw [div_le_iff₀ h10]
    calc ((round (q * 10 ^ n) : ℤ) : ℚ) ≤ ((100 * 10 ^ n : ℤ) : ℚ) := by
          exact_mod_cast hrU
      _ = 100 * 10 ^ n := by push_cast; ring

lemma runLengths_start_time (clock : Nat → ℚ) :
    ∀ (Ls : List Nat) (s : PasswordCracker),
      (runLengths clock s Ls).start_time = s.start_time := by
  intro Ls
  induction Ls with
  | nil => intro s; rfl
  | cons L Ls ih =>
    intro s
    rw [runLengths]
    split
    · rw [withLA_start_time, runLength_eq_foldl, foldl_start_time]
    · rw [ih, withLA_start_time, runLength_eq_foldl, foldl_start_time]

lemma runLengths_attempts_mono (clock : Nat → ℚ) :
    ∀ (Ls : List Nat) (s : PasswordCracker),
      s.attempts ≤ (runLengths clock s Ls).attempts := by
  intro Ls
  induction Ls with
  | nil => intro s; exact Nat.le_refl _
  | cons L Ls ih =>
    intro s
    rw [runLengths]
    split
    · rw [withLA_attempts, runLength_eq_foldl, foldl_attempts]
      omega
    · refine Nat.le_trans ?_ (ih _)
      rw [withLA_attempts, runLength_eq_foldl, foldl_attempts]
      omega

lemma runLengths_hits_mono (clock : Nat → ℚ) :
    ∀ (Ls : List Nat) (s : PasswordCracker) (c : Char),
      s.charset_hits c ≤ (runLengths clock s Ls).charset_hits c := by
  intro Ls
  induction Ls with
  | nil => intro s c; exact Nat.le_refl _
  | cons L Ls ih =>
    intro s c
    rw [runLengths]
    split
    · rw [withLA_hits, runLength_eq_foldl, foldl_hits]
      omega
    · refine Nat.le_trans ?_ (ih _ c)
      rw [withLA_hits, runLength_eq_foldl, foldl_hits]
      omega

lemma found_target_mem {pw : List Char} {ml : Int} {cs : Option (List Char)}
    {v : Bool} {t e : ℚ} {clock : Nat → ℚ}
    (hf : (crack t clock e (init pw ml cs v)).found = true) :
    1 ≤ pw.length ∧ pw.length ≤ ml.toNat
    ∧ pw ∈ candidates (init pw ml cs v).charset pw.length := by
  obtain ⟨L, hL, hmm⟩ := (crackInit_found_iff_exists pw ml cs v t e clock).1 hf
  have hlen := length_of_mem_candidates hmm
  obtain ⟨h1, h2⟩ := mem_lengthList.1 hL
  exact ⟨by omega, by omega, hlen ▸ hmm⟩

lemma attemptedGuesses_length_of_found {pw A : List Char} (hA : A ≠ [])
    {ml : Int} (hmem : pw ∈ candidates A pw.length)
    (ht1 : 1 ≤ pw.length) (ht2 : pw.length ≤ ml.toNat) :
    0 < (attemptedGuesses pw A (lengthList ml)).length
    ∧ (attemptedGuesses pw A (lengthList ml)).length
        ≤ searchSpace A.length pw.length := by
  obtain ⟨Ls₂, hsplit⟩ := lengthList_split ml pw.length ht1 ht2
  have hmiss : ∀ L ∈ (List.range (pw.length - 1)).map (· + 1),
      pw ∉ candidates A L := by
    intro L hL
    rw [List.mem_map] at hL
    obtain ⟨i, hi, rfl⟩ := hL
    rw [List.mem_range] at hi
    exact not_mem_candidates_of_length_ne (by omega)
  rw [hsplit, attemptedGuesses_append_miss hmiss,
    attemptedGuesses_cons_hit Ls₂ hmem, List.length_append,
    length_flatMap_candidates]
  have hproc_pos : 0 < (processed pw (candidates A pw.length)).length :=
    length_processed_pos pw _ (candidates_ne_nil hA pw.length)
  have hproc_le : (processed pw (candidates A pw.length)).length
      ≤ A.length ^ pw.length := by
    calc (processed pw (candidates A pw.length)).length
        ≤ (candidates A pw.length).length := length_processed_le pw _
      _ = A.length ^ pw.length := length_candidates A pw.length
  constructor
  · omega
  · have hss : searchSpace A.length pw.length
        = searchSpace A.length (pw.length - 1) + A.length ^ pw.length := by
      rw [show pw.length = (pw.length - 1) + 1 by omega, searchSpace_succ]
      rw [show pw.length - 1 + 1 - 1 = pw.length - 1 by omega]
    omega

lemma estimate_crackInit (pw : List Char) (ml : Int) (cs : Option (List Char))
    (v : Bool) (t e : ℚ) (clock : Nat → ℚ) :
    estimate_total_combinations (crack t clock e (init pw ml cs v))
      = searchSpace (init pw ml cs v).charset.length pw.length := by
  rw [estimate_total_combinations, crackInit_charset, crackInit_password]

/-! ## Projections of the generated report -/

lemma search_efficiency_eq (s : PasswordCracker) :
    (generate_report s).search_efficiency
      = if s.found then
          some ⟨s.attempts, estimate_total_combinations s,
            roundTo 4 ((s.attempts : ℚ)
              / (estimate_total_combinations s : ℚ) * 100)⟩
        else none := rfl

lemma efficiency_eq (s : PasswordCracker) :
    (generate_report s).efficiency_percentage
      = roundTo 6 (if 0 < s.attempts then 1 / (s.attempts : ℚ) * 100 else 0) :=
  rfl

lemma rate_eq (s : PasswordCracker) :
    (generate_report s).attempts_per_second
      = roundTo 2 (safeRate s.attempts (durationOf s)) := rfl

lemma roundTo_zero (n : Nat) : roundTo n 0 = 0 := by
  rw [roundTo, zero_mul, round_zero, Int.cast_zero, zero_div]

/-! ## Claims -/

/-- Claim C1, counterexample.  For alphabet `"ab"`, target `"ba"` and
`max_length = 2` the engine does report `found = True` with matched
`"ba"`, and the enumeration order is `"a","b","aa","ab","ba"` — but the
total number of attempts is 5, not 4: the matching attempt itself is
counted (`self.attempts += 1` runs before the comparison), and `"ba"` is
the third length-2 candidate, so attempts `= 2 + 3 = 5`. -/
theorem c1_counterexample :
    (crack 0 (fun _ => 0) 0 (init ['b','a'] 2 (some ['a','b']) false)).found
        = true
    ∧ (crack 0 (fun _ => 0) 0
        (init ['b','a'] 2 (some ['a','b']) false)).cracked_password
        = some ['b','a']
    ∧ (crack 0 (fun _ => 0) 0 (init ['b','a'] 2 (some ['a','b']) false)).attempts
        = 5
    ∧ (crack 0 (fun _ => 0) 0 (init ['b','a'] 2 (some ['a','b']) false)).attempts
        ≠ 4 := by
  refine ⟨by decide, by decide, by decide, by decide⟩

/-- Claim C1, amended.  `crack()` enumerates candidates length-by-length
from 1 to `max_length`, within each length in base-`k` counting order
over the alphabet (leftmost position most significant, last position
cycling fastest), and stops at the first candidate equal to the target;
in particular, for alphabet `"ab"`, target `"ba"`, `max_length = 2`, it
reports `found = True`, matched `"ba"`, and total attempts exactly 5
(the match is counted), since the attempted order is
`"a","b","aa","ab","ba"`. -/
theorem c1_enumeration_order :
    (∀ (A : List Char) (L : Nat),
      candidates A L = (List.range (A.length ^ L)).map (specNumeral A L))
    ∧ (crack 0 (fun _ => 0) 0 (init ['b','a'] 2 (some ['a','b']) false)).found
        = true
    ∧ (crack 0 (fun _ => 0) 0
        (init ['b','a'] 2 (some ['a','b']) false)).cracked_password
        = some ['b','a']
    ∧ (crack 0 (fun _ => 0) 0 (init ['b','a'] 2 (some ['a','b']) false)).attempts
        = 5
    ∧ attemptedGuesses ['b','a'] ['a','b'] (lengthList 2)
        = [['a'], ['b'], ['a','a'], ['a','b'], ['b','a']] := by
  exact ⟨fun A L => candidates_eq_specNumeral A L,
    by decide, by decide, by decide, by decide⟩

/-- Claim C3, counterexample.  Constructing the engine with an empty
target, a non-positive max length and an empty alphabet raises nothing:
`__init__` performs no validation, silently substitutes the default
alphabet, and produces a fully initialised state on which `crack()`
runs normally (here making zero attempts). -/
theorem c3_counterexample :
    (init [] 0 (some []) true).charset = defaultCharset
    ∧ (init [] 0 (some []) true).attempts = 0
    ∧ (init [] 0 (some []) true).found = false
    ∧ (crack 0 (fun _ => 0) 0 (init [] 0 (some []) true)).attempts = 0
    ∧ (crack 0 (fun _ => 0) 0 (init [] 0 (some []) true)).found = false := by
  refine ⟨by decide, rfl, rfl, rfl, rfl⟩

/-- Claim C3, amended.  Construction never raises: no configuration is
validated.  An empty (or missing) alphabet is silently replaced by the
non-empty default, a non-positive max length and an empty target are
accepted, and the constructor always yields a fully initialised zeroed
state; with a non-positive max length, `crack()` simply makes zero
attempts and reports `found = False`. -/
theorem c3_construction_no_validation (pw : List Char) (ml : Int)
    (cs : Option (List Char)) (v : Bool) (t e : ℚ) (clock : Nat → ℚ) :
    (init pw ml cs v).attempts = 0
    ∧ (init pw ml cs v).found = false
    ∧ (init pw ml cs v).length_attempts = []
    ∧ (init pw ml cs v).charset ≠ []
    ∧ (ml ≤ 0 →
        (crack t clock e (init pw ml cs v)).attempts = 0
        ∧ (crack t clock e (init pw ml cs v)).found = false) := by
  refine ⟨rfl, rfl, rfl, init_charset_ne_nil pw ml cs v, ?_⟩
  intro hml
  have hLL : lengthList ml = [] := by
    rw [lengthList, show ml.toNat = 0 by omega]
    rfl
  constructor
  · rw [crackInit_attempts, hLL]
    rfl
  · have h := crackInit_found pw ml cs v t e clock
    rw [hLL] at h
    cases hb : (crack t clock e (init pw ml cs v)).found
    · rfl
    · have := h.1 hb
      rw [attemptedGuesses] at this
      simp at this

/-- Claim C3, witness for the amended theorem at a concrete invalid
configuration (empty target, zero max length, empty alphabet). -/
theorem c3_construction_no_validation_witness :
    (init [] 0 (some []) true).attempts = 0
    ∧ (init [] 0 (some []) true).found = false
    ∧ (init [] 0 (some []) true).length_attempts = []
    ∧ (init [] 0 (some []) true).charset ≠ []
    ∧ ((0:Int) ≤ 0 →
        (crack 1 (fun _ => 2) 3 (init [] 0 (some []) true)).attempts = 0
        ∧ (crack 1 (fun _ => 2) 3 (init [] 0 (some []) true)).found = false) :=
  c3_construction_no_validation [] 0 (some []) true 1 3 (fun _ => 2)

/-- Claim C5, counterexample.  `crack()` does not reset any counter:
after a run on alphabet `"a"`, target `"a"`, `max_length = 1` (1
attempt), calling `crack()` again on the same instance continues from
the old state and ends with `attempts = 2`; a zeroed restart would
again give 1. -/
theorem c5_counterexample :
    (crack 0 (fun _ => 0) 0 (init ['a'] 1 (some ['a']) false)).attempts = 1
    ∧ (crack 0 (fun _ => 0) 0 (crack 0 (fun _ => 0) 0
        (init ['a'] 1 (some ['a']) false))).attempts = 2 := by
  refine ⟨by decide, by decide⟩

/-- Claim C5, amended.  Every invocation of `crack()` records a fresh
start timestamp (and a fresh end timestamp), but it resets nothing: the
attempt counter and the per-character hit counters carry over, so a
second call accumulates on top of the previous run instead of starting
from a zeroed state. -/
theorem c5_fresh_timestamp_no_reset (s : PasswordCracker) (t e : ℚ)
    (clock : Nat → ℚ) :
    (crack t clock e s).start_time = some t
    ∧ (crack t clock e s).end_time = some e
    ∧ s.attempts ≤ (crack t clock e s).attempts
    ∧ (∀ c, s.charset_hits c ≤ (crack t clock e s).charset_hits c) := by
  refine ⟨?_, ?_, ?_, ?_⟩
  · rw [crack, withEnd_start_time, runLengths_start_time, withStart_start_time]
  · rw [crack, withEnd_end_time]
  · rw [crack, withEnd_attempts]
    have h := runLengths_attempts_mono clock (lengthList s.max_length)
      (withStart s t)
    rw [withStart_attempts] at h
    exact h
  · intro c
    rw [crack, withEnd_hits]
    have h := runLengths_hits_mono clock (lengthList s.max_length)
      (withStart s t) c
    rw [withStart_hits] at h
    exact h

/-- Claim C10.  A `None` or empty `charset` argument is silently
replaced by the default alphabet — ASCII lowercase and uppercase
letters, digits and punctuation, 94 symbols in total — so the engine
enumerates over that default rather than raising or searching an empty
space; a non-empty `charset` is kept as given. -/
theorem c10_default_charset (pw : List Char) (ml : Int) (v : Bool) :
    (init pw ml none v).charset = defaultCharset
    ∧ (init pw ml (some []) v).charset = defaultCharset
    ∧ defaultCharset
        = ascii_lowercase ++ ascii_uppercase ++ string_digits
          ++ string_punctuation
    ∧ defaultCharset.length = 94 := by
  refine ⟨rfl, rfl, rfl, by decide⟩

/-- Claim C4, counterexample.  With `verbose=False`, a run over the
10-digit alphabet with `max_length = 5` and an unreachable 6-character
target makes 111110 attempts — passing through the exact multiple
100000 of the checkpoint interval — yet the checkpoint sequence stays
empty: checkpoint production is gated on the verbosity flag, not
produced unconditionally. -/
theorem c4_counterexample :
    (crack 0 (fun _ => 0) 0
      (init ['a','a','a','a','a','a'] 5 (some string_digits) false)).time_checkpoints
      = []
    ∧ 100000 ≤ (crack 0 (fun _ => 0) 0
      (init ['a','a','a','a','a','a'] 5 (some string_digits) false)).attempts := by
  constructor
  · exact crackInit_checkpoints_quiet _ _ _ _ _ _
  · rw [crackInit_attempts]
    have hA : (init ['a','a','a','a','a','a'] 5 (some string_digits)
        false).charset = string_digits := rfl
    rw [hA]
    have hmiss : ∀ L ∈ lengthList 5,
        (['a','a','a','a','a','a'] : List Char) ∉ candidates string_digits L := by
      intro L hL
      obtain ⟨h1, h2⟩ := mem_lengthList.1 hL
      apply not_mem_candidates_of_length_ne
      show (6:Nat) ≠ L
      omega
    rw [attemptedGuesses_all_miss hmiss, lengthList,
      length_flatMap_candidates]
    have hss : searchSpace string_digits.length (5:Int).toNat = 111110 := by
      decide
    omega

/-- Claim C4, amended.  A checkpoint snapshot is appended exactly when
the total attempt count is a multiple of the interval (100000 in the
source) *and* the verbosity flag is set: with `verbose=True` the
recorded attempt counts are precisely the multiples of 100000 up to the
final total, and with `verbose=False` the checkpoint sequence is empty —
it is not produced independently of the verbosity flag. -/
theorem c4_checkpoints_gated (pw : List Char) (ml : Int)
    (cs : Option (List Char)) (t e : ℚ) (clock : Nat → ℚ) :
    (crack t clock e (init pw ml cs false)).time_checkpoints = []
    ∧ (crack t clock e (init pw ml cs true)).time_checkpoints.map
          Checkpoint.attempts
        = ckRange 0 (crack t clock e (init pw ml cs true)).attempts := by
  constructor
  · exact crackInit_checkpoints_quiet pw ml cs t e clock
  · rw [crackInit_checkpoints_map, if_pos rfl, crackInit_attempts]

/-- Claim C7.  Whenever the target is longer than `max_length`, the run
reports `found = False` and the attempts cover exactly the lengths
`1 .. max_length`, i.e. the total equals `Σ_(i=1..max_length) k^i`; and
`max_length = 0` exhausts immediately with zero attempts and an empty
per-length dict. -/
theorem c7_exhausted_over_max (pw : List Char) (ml : Int)
    (cs : Option (List Char)) (v : Bool) (t e : ℚ) (clock : Nat → ℚ) :
    ((pw.length : Int) > ml →
        (crack t clock e (init pw ml cs v)).found = false
        ∧ (crack t clock e (init pw ml cs v)).attempts
            = searchSpace (init pw ml cs v).charset.length ml.toNat)
    ∧ (ml = 0 →
        (crack t clock e (init pw ml cs v)).attempts = 0
        ∧ (crack t clock e (init pw ml cs v)).found = false
        ∧ (crack t clock e (init pw ml cs v)).length_attempts = []) := by
  constructor
  · intro hml
    have hmiss : ∀ L ∈ lengthList ml,
        pw ∉ candidates (init pw ml cs v).charset L := by
      intro L hL
      obtain ⟨h1, h2⟩ := mem_lengthList.1 hL
      exact not_mem_candidates_of_length_ne (by omega)
    constructor
    · cases hb : (crack t clock e (init pw ml cs v)).found
      · rfl
      · obtain ⟨L, hL, hmm⟩ :=
          (crackInit_found_iff_exists pw ml cs v t e clock).1 hb
        exact absurd hmm (hmiss L hL)
    · rw [crackInit_attempts, attemptedGuesses_all_miss hmiss, lengthList,
        length_flatMap_candidates]
  · intro hml
    subst hml
    have hLL : lengthList 0 = [] := rfl
    refine ⟨?_, ?_, ?_⟩
    · rw [crackInit_attempts, hLL]
      rfl
    · have h := crackInit_found pw 0 cs v t e clock
      rw [hLL] at h
      cases hb : (crack t clock e (init pw 0 cs v)).found
      · rfl
      · have hmem := h.1 hb
        rw [attemptedGuesses] at hmem
        simp at hmem
    · rw [crackInit_LA, hLL]
      rfl

/-- Claim C7, witness: target `"aa"` over alphabet `"a"` with
`max_length = 1` is exhausted with `found = False` and `k^1 = 1`
attempts; with `max_length = 0` the run makes zero attempts. -/
theorem c7_exhausted_over_max_witness :
    ((crack 0 (fun _ => 0) 0 (init ['a','a'] 1 (some ['a']) false)).found
        = false
      ∧ (crack 0 (fun _ => 0) 0 (init ['a','a'] 1 (some ['a']) false)).attempts
          = searchSpace
              (init ['a','a'] 1 (some ['a']) false).charset.length (1:Int).toNat)
    ∧ ((crack 0 (fun _ => 0) 0 (init ['a','a'] 0 (some ['a']) false)).attempts
        = 0
      ∧ (crack 0 (fun _ => 0) 0 (init ['a','a'] 0 (some ['a']) false)).found
          = false
      ∧ (crack 0 (fun _ => 0) 0
          (init ['a','a'] 0 (some ['a']) false)).length_attempts = []) :=
  ⟨(c7_exhausted_over_max ['a','a'] 1 (some ['a']) false 0 0 (fun _ => 0)).1
      (by decide),
   (c7_exhausted_over_max ['a','a'] 0 (some ['a']) false 0 0 (fun _ => 0)).2
      rfl⟩

/-- Claim C8.  After a run on a fresh engine, the per-character hit
counter of each character equals the total number of its occurrences
across all generated candidates — the final matching candidate
included, since `attemptedGuesses` ends with the match when one occurs
(`found` holds exactly when the target is among the attempted
guesses, and the attempt counter equals their number). -/
theorem c8_hits_count_all (pw : List Char) (ml : Int)
    (cs : Option (List Char)) (v : Bool) (t e : ℚ) (clock : Nat → ℚ) :
    (∀ c : Char,
      (crack t clock e (init pw ml cs v)).charset_hits c
        = ((attemptedGuesses pw (init pw ml cs v).charset (lengthList ml)).map
            (fun g => g.count c)).sum)
    ∧ (crack t clock e (init pw ml cs v)).attempts
        = (attemptedGuesses pw (init pw ml cs v).charset (lengthList ml)).length
    ∧ ((crack t clock e (init pw ml cs v)).found = true
        ↔ pw ∈ attemptedGuesses pw (init pw ml cs v).charset (lengthList ml)) :=
  ⟨fun c => crackInit_hits pw ml cs v t e clock c,
   crackInit_attempts pw ml cs v t e clock,
   crackInit_found pw ml cs v t e clock⟩

/-- Claim C2, counterexample.  For alphabet `"ab"` (more than one
candidate), target `"bb"`, `max_length = 3`, the run ends with
`found = True` after 6 attempts, yet the reported
percentage-of-search-space-explored is exactly 100: the report's
denominator is `Σ_(i=1..len(target)) k^i = 6` (the *target's* length,
not `max_length`), so the percentage is not strictly below 100 even
though the space up to `max_length` (14 candidates) was not fully
enumerated. -/
theorem c2_counterexample :
    (crack 0 (fun _ => 0) 0 (init ['b','b'] 3 (some ['a','b']) false)).found
        = true
    ∧ 1 < (init ['b','b'] 3 (some ['a','b']) false).charset.length
    ∧ (generate_report (crack 0 (fun _ => 0) 0
        (init ['b','b'] 3 (some ['a','b']) false))).search_efficiency
        = some ⟨6, 6, 100⟩ := by
  refine ⟨by decide, by decide, ?_⟩
  rw [search_efficiency_eq]
  have hf : (crack 0 (fun _ => 0) 0
      (init ['b','b'] 3 (some ['a','b']) false)).found = true := by decide
  have ha : (crack 0 (fun _ => 0) 0
      (init ['b','b'] 3 (some ['a','b']) false)).attempts = 6 := by decide
  have ht : estimate_total_combinations (crack 0 (fun _ => 0) 0
      (init ['b','b'] 3 (some ['a','b']) false)) = 6 := by decide
  rw [hf, if_pos rfl, ha, ht]
  congr 1
  congr 1
  norm_num [roundTo, round_eq]

/-- Claim C2, amended.  When `found = True`, the attempt count is
positive and bounded by the report's total search space
(`Σ_(i=1..len(target)) k^i`), so the unrounded
percentage-of-search-space-explored lies in `(0, 100]` and the reported
(rounded) value lies in `[0, 100]`; the value 100 *is* attained with
`found = True` whenever the target is the last candidate of its own
length — it is not restricted to full enumeration without early
termination. -/
theorem c2_percentage_bounds (pw : List Char) (ml : Int)
    (cs : Option (List Char)) (v : Bool) (t e : ℚ) (clock : Nat → ℚ)
    (hf : (crack t clock e (init pw ml cs v)).found = true) :
    0 < (crack t clock e (init pw ml cs v)).attempts
    ∧ (crack t clock e (init pw ml cs v)).attempts
        ≤ estimate_total_combinations (crack t clock e (init pw ml cs v))
    ∧ (generate_report (crack t clock e (init pw ml cs v))).search_efficiency
        = some ⟨(crack t clock e (init pw ml cs v)).attempts,
            estimate_total_combinations (crack t clock e (init pw ml cs v)),
            roundTo 4 (((crack t clock e (init pw ml cs v)).attempts : ℚ)
              / (estimate_total_combinations
                  (crack t clock e (init pw ml cs v)) : ℚ) * 100)⟩
    ∧ 0 < ((crack t clock e (init pw ml cs v)).attempts : ℚ)
        / (estimate_total_combinations (crack t clock e (init pw ml cs v)) : ℚ)
        * 100
    ∧ ((crack t clock e (init pw ml cs v)).attempts : ℚ)
        / (estimate_total_combinations (crack t clock e (init pw ml cs v)) : ℚ)
        * 100 ≤ 100
    ∧ 0 ≤ roundTo 4 (((crack t clock e (init pw ml cs v)).attempts : ℚ)
        / (estimate_total_combinations (crack t clock e (init pw ml cs v)) : ℚ)
        * 100)
    ∧ roundTo 4 (((crack t clock e (init pw ml cs v)).attempts : ℚ)
        / (estimate_total_combinations (crack t clock e (init pw ml cs v)) : ℚ)
        * 100) ≤ 100 := by
  obtain ⟨h1, h2, hmem⟩ := found_target_mem hf
  have hA : (init pw ml cs v).charset ≠ [] := init_charset_ne_nil pw ml cs v
  obtain ⟨hpos, hle⟩ := attemptedGuesses_length_of_found hA hmem h1 h2
  have hatt := crackInit_attempts pw ml cs v t e clock
  have hest := estimate_crackInit pw ml cs v t e clock
  have hA0 : 0 < (crack t clock e (init pw ml cs v)).attempts := by
    rw [hatt]
    exact hpos
  have hAle : (crack t clock e (init pw ml cs v)).attempts
      ≤ estimate_total_combinations (crack t clock e (init pw ml cs v)) := by
    rw [hatt, hest]
    exact hle
  have htot_pos : 0 < estimate_total_combinations
      (crack t clock e (init pw ml cs v)) := lt_of_lt_of_le hA0 hAle
  have haQ : (0:ℚ) < ((crack t clock e (init pw ml cs v)).attempts : ℚ) := by
    exact_mod_cast hA0
  have hTQ : (0:ℚ) < (estimate_total_combinations
      (crack t clock e (init pw ml cs v)) : ℚ) := by
    exact_mod_cast htot_pos
  have hpct_pos : 0 < ((crack t clock e (init pw ml cs v)).attempts : ℚ)
      / (estimate_total_combinations (crack t clock e (init pw ml cs v)) : ℚ)
      * 100 := by positivity
  have hdiv : ((crack t clock e (init pw ml cs v)).attempts : ℚ)
      / (estimate_total_combinations (crack t clock e (init pw ml cs v)) : ℚ)
      ≤ 1 := (div_le_one hTQ).2 (by exact_mod_cast hAle)
  have hpct_le : ((crack t clock e (init pw ml cs v)).attempts : ℚ)
      / (estimate_total_combinations (crack t clock e (init pw ml cs v)) : ℚ)
      * 100 ≤ 100 := by nlinarith
  obtain ⟨hr0, hr1⟩ := roundTo_bounds 4 (le_of_lt hpct_pos) hpct_le
  refine ⟨hA0, hAle, ?_, hpct_pos, hpct_le, hr0, hr1⟩
  rw [search_efficiency_eq, hf, if_pos rfl]

/-- Claim C2, witness: the run on alphabet `"ab"`, target `"ba"`,
`max_length = 2` ends `found = True`; its attempts (5) are positive and
at most the total space (6), and the reported percentage obeys the
bounds. -/
theorem c2_percentage_bounds_witness :
    0 < (crack 0 (fun _ => 0) 0 (init ['b','a'] 2 (some ['a','b']) false)).attempts
    ∧ (crack 0 (fun _ => 0) 0 (init ['b','a'] 2 (some ['a','b']) false)).attempts
        ≤ estimate_total_combinations
            (crack 0 (fun _ => 0) 0 (init ['b','a'] 2 (some ['a','b']) false))
    ∧ (generate_report (crack 0 (fun _ => 0) 0
          (init ['b','a'] 2 (some ['a','b']) false))).search_efficiency
        = some ⟨(crack 0 (fun _ => 0) 0
              (init ['b','a'] 2 (some ['a','b']) false)).attempts,
            estimate_total_combinations (crack 0 (fun _ => 0) 0
              (init ['b','a'] 2 (some ['a','b']) false)),
            roundTo 4 (((crack 0 (fun _ => 0) 0
                (init ['b','a'] 2 (some ['a','b']) false)).attempts : ℚ)
              / (estimate_total_combinations (crack 0 (fun _ => 0) 0
                  (init ['b','a'] 2 (some ['a','b']) false)) : ℚ) * 100)⟩
    ∧ 0 < ((crack 0 (fun _ => 0) 0
          (init ['b','a'] 2 (some ['a','b']) false)).attempts : ℚ)
        / (estimate_total_combinations (crack 0 (fun _ => 0) 0
            (init ['b','a'] 2 (some ['a','b']) false)) : ℚ) * 100
    ∧ ((crack 0 (fun _ => 0) 0
          (init ['b','a'] 2 (some ['a','b']) false)).attempts : ℚ)
        / (estimate_total_combinations (crack 0 (fun _ => 0) 0
            (init ['b','a'] 2 (some ['a','b']) false)) : ℚ) * 100 ≤ 100
    ∧ 0 ≤ roundTo 4 (((crack 0 (fun _ => 0) 0
          (init ['b','a'] 2 (some ['a','b']) false)).attempts : ℚ)
        / (estimate_total_combinations (crack 0 (fun _ => 0) 0
            (init ['b','a'] 2 (some ['a','b']) false)) : ℚ) * 100)
    ∧ roundTo 4 (((crack 0 (fun _ => 0) 0
          (init ['b','a'] 2 (some ['a','b']) false)).attempts : ℚ)
        / (estimate_total_combinations (crack 0 (fun _ => 0) 0
            (init ['b','a'] 2 (some ['a','b']) false)) : ℚ) * 100) ≤ 100 :=
  c2_percentage_bounds ['b','a'] 2 (some ['a','b']) false 0 0 (fun _ => 0)
    (by decide)

/-- Claim C6.  After a run on a fresh engine, the total attempt count
equals the sum of the recorded per-length counts, and every recorded
count lies between 1 and `k^L` inclusive, falling short of `k^L` only
for the length at which the match occurred (which is the target's own
length, with `found = True`). -/
theorem c6_per_length_invariant (pw : List Char) (ml : Int)
    (cs : Option (List Char)) (v : Bool) (t e : ℚ) (clock : Nat → ℚ) :
    (crack t clock e (init pw ml cs v)).attempts
      = (((crack t clock e (init pw ml cs v)).length_attempts).map
          Prod.snd).sum
    ∧ ∀ p ∈ (crack t clock e (init pw ml cs v)).length_attempts,
        1 ≤ p.2
        ∧ p.2 ≤ (init pw ml cs v).charset.length ^ p.1
        ∧ (p.2 < (init pw ml cs v).charset.length ^ p.1 →
            (crack t clock e (init pw ml cs v)).found = true
            ∧ p.1 = pw.length) := by
  have hLA := crackInit_LA pw ml cs v t e clock
  have hatt := crackInit_attempts pw ml cs v t e clock
  constructor
  · rw [hatt, hLA, perLengthCounts_sum]
  · intro p hp
    rw [hLA] at hp
    obtain ⟨hmemL, hlen⟩ := perLengthCounts_mem hp
    have hA : (init pw ml cs v).charset ≠ [] := init_charset_ne_nil pw ml cs v
    have hcand : candidates (init pw ml cs v).charset p.1 ≠ [] :=
      candidates_ne_nil hA p.1
    have hcl : (candidates (init pw ml cs v).charset p.1).length
        = (init pw ml cs v).charset.length ^ p.1 := length_candidates _ _
    have hb1 : 1 ≤ p.2 := by
      rw [hlen]
      exact length_processed_pos pw _ hcand
    have hb2 : p.2 ≤ (init pw ml cs v).charset.length ^ p.1 := by
      rw [hlen, ← hcl]
      exact length_processed_le pw _
    refine ⟨hb1, hb2, ?_⟩
    intro hlt
    have hmemC : pw ∈ candidates (init pw ml cs v).charset p.1 := by
      apply mem_of_processed_length_lt
      rw [hcl, ← hlen]
      exact hlt
    constructor
    · exact (crackInit_found_iff_exists pw ml cs v t e clock).2
        ⟨p.1, hmemL, hmemC⟩
    · exact (length_of_mem_candidates hmemC).symm

/-- Claim C6, witness: on the run over alphabet `"ab"` with target
`"ba"` and `max_length = 2`, the per-length dict is `[(1,2),(2,3)]`;
the sum 5 equals the attempts, and the entry `(2,3)` satisfies
`1 ≤ 3 ≤ 2^2` with the shortfall at the matched length 2. -/
theorem c6_per_length_invariant_witness :
    (crack 0 (fun _ => 0) 0 (init ['b','a'] 2 (some ['a','b']) false)).attempts
      = (((crack 0 (fun _ => 0) 0
          (init ['b','a'] 2 (some ['a','b']) false)).length_attempts).map
          Prod.snd).sum
    ∧ (1 ≤ ((2,3) : Nat × Nat).2
        ∧ ((2,3) : Nat × Nat).2
            ≤ (init ['b','a'] 2 (some ['a','b']) false).charset.length
              ^ ((2,3) : Nat × Nat).1
        ∧ (((2,3) : Nat × Nat).2
              < (init ['b','a'] 2 (some ['a','b']) false).charset.length
                ^ ((2,3) : Nat × Nat).1 →
            (crack 0 (fun _ => 0) 0
              (init ['b','a'] 2 (some ['a','b']) false)).found = true
            ∧ ((2,3) : Nat × Nat).1 = (['b','a'] : List Char).length)) :=
  ⟨(c6_per_length_invariant ['b','a'] 2 (some ['a','b']) false 0 0
      (fun _ => 0)).1,
   (c6_per_length_invariant ['b','a'] 2 (some ['a','b']) false 0 0
      (fun _ => 0)).2 (2,3) (by decide)⟩

/-- Claim C9.  Every rate computation is guarded: `safeRate` — the
shared form of `attempts / elapsed if elapsed > 0 else 0` used at both
the checkpoint site in `crack` and the duration site in
`generate_report` — returns 0 whenever the elapsed time is not
positive, and the reported efficiency percentage is `1/attempts` as a
percentage (rounded to 6 decimals as the code does) when
`attempts > 0` and 0 when `attempts = 0`; no report computation divides
by a zero duration or zero attempt count. -/
theorem c9_rate_guards (s : PasswordCracker) (a : Nat) (q : ℚ) :
    (q ≤ 0 → safeRate a q = 0)
    ∧ (generate_report s).attempts_per_second
        = roundTo 2 (safeRate s.attempts (durationOf s))
    ∧ (s.attempts = 0 → (generate_report s).efficiency_percentage = 0)
    ∧ (0 < s.attempts →
        (generate_report s).efficiency_percentage
          = roundTo 6 (1 / (s.attempts : ℚ) * 100)) := by
  refine ⟨?_, rate_eq s, ?_, ?_⟩
  · intro h
    rw [safeRate, if_neg (not_lt.2 h)]
  · intro h
    rw [efficiency_eq, h, if_neg (lt_irrefl 0), roundTo_zero]
  · intro h
    rw [efficiency_eq, if_pos h]

/-- Claim C9, witness: a zero elapsed time yields rate 0, the report of
the never-run engine (0 attempts) has efficiency 0, and the report of a
1-attempt successful run has efficiency `roundTo 6 (1/1·100)`. -/
theorem c9_rate_guards_witness :
    safeRate 0 0 = 0
    ∧ (generate_report (init [] 0 none false)).attempts_per_second
        = roundTo 2 (safeRate (init [] 0 none false).attempts
            (durationOf (init [] 0 none false)))
    ∧ (generate_report (init [] 0 none false)).efficiency_percentage = 0
    ∧ (generate_report (crack 0 (fun _ => 0) 0
          (init ['a'] 1 (some ['a']) false))).efficiency_percentage
        = roundTo 6 (1 / ((crack 0 (fun _ => 0) 0
            (init ['a'] 1 (some ['a']) false)).attempts : ℚ) * 100) :=
  ⟨(c9_rate_guards (init [] 0 none false) 0 0).1 (le_refl 0),
   (c9_rate_guards (init [] 0 none false) 0 0).2.1,
   (c9_rate_guards (init [] 0 none false) 0 0).2.2.1 rfl,
   (c9_rate_guards (crack 0 (fun _ => 0) 0
        (init ['a'] 1 (some ['a']) false)) 0 0).2.2.2 (by decide)⟩
